import Mathlib

/-!
Verification of the VTIL-SymEx directive transformer
(`VTIL-SymEx/directives/transformer.cpp`): the recursive `translate`
function that instantiates a directive tree into a symbolic expression
under a symbol table, and the `transform` orchestrator that drives the
matcher, the translator and an optional filter.

The expression class, the external simplifier and the structural matcher
are external collaborators of this translation unit; they are modelled
abstractly: expressions as a concrete tree type mirroring the data model
(operator, bit width, children), and the external operations
(`expression::make`, `resize`, `simplify_expression`, the mask/constant
queries, `fast_match`) as parameters bundled in a `Sem` structure
respectively passed as a function argument, so every theorem quantifies
over their behaviour.

Outcomes are three-valued: `ok e` (a non-null reference), `fail` (the
null reference `{}`, recoverable absence), and `fatal` (a call to
`unreachable()` / `error()` / a failed `fassert`, which aborts the
process and therefore propagates through every caller).
-/

namespace VTILSymEx

/-- Symbolic expression node, mirroring the data model of the spec: an
operator tag (arithmetic operators are identified by a numeric id, as the
operator set itself is external), a bit width, and up to two children.
Leaves are constants or named variables. -/
inductive Expr where
  | const (v : Int) (w : Nat)
  | evar (id : String) (w : Nat)
  | unop (op : Nat) (rhs : Expr) (w : Nat)
  | binop (op : Nat) (lhs rhs : Expr) (w : Nat)
deriving DecidableEq, Repr

/-- Bit width of an expression node (`expression::size()`). -/
def esize : Expr → Nat
  | .const _ w => w
  | .evar _ w => w
  | .unop _ _ w => w
  | .binop _ _ _ w => w

/-- The static dummy expression of `translate`: a variable named
`"@dummmy"` of size 1, used only to signal speculative success. -/
def dummyExpression : Expr := .evar "@dummmy" 1

/-- Whether the dummy sentinel occurs in an expression, either as the
whole expression or as a subexpression (structural occurrence). -/
def containsDummy : Expr → Bool
  | .const _ _ => false
  | .evar id w => id = "@dummmy" && w = 1
  | .unop _ r _ => containsDummy r
  | .binop _ l r _ => containsDummy l || containsDummy r

/-- External primitives of the expression class and the external
simplifier, consumed by the translator (spec section 6). `make2`/`make1`
are `expression::make` for binary/unary operators, `resize` is the
in-place `expression::resize` (functionally: it returns the resized
expression), `simplify_expression` is the external simplifier entry point
(returning the possibly mutated expression together with its success
flag), `msimplify` is the member `expression::simplify`, `getB` and
`getBitcnt` are `expression::get` at bool / bitcnt type, and the mask
queries return the cached known/unknown bit masks. -/
structure Sem where
  make2 : Expr → Nat → Expr → Expr
  make1 : Nat → Expr → Expr
  resize : Expr → Nat → Bool → Expr
  simplify_expression : Expr → Expr × Bool
  msimplify : Expr → Expr
  getB : Expr → Option Bool
  getBitcnt : Expr → Option Nat
  unknown_mask : Expr → Int
  known_one : Expr → Int
  known_zero : Expr → Int
  simplify_hint : Expr → Bool

/-- Directive tree node. The C++ `instance` carries a single operator id
whose value range determines the node kind; the kinds are split into
constructors here: `constD`/`varD` are the `invalid`-operator leaves
(literal constant respectively pattern variable), `castD` covers the
`cast`/`ucast` operators (`sg = true` for the signed `cast`),
`binD`/`unD` the remaining arithmetic operators below `max`, the named
constructors the directive meta-operators, and `unknownD` an operator
value handled by no `switch` case (the `default` branch). -/
inductive Directive where
  | constD (v : Int)
  | varD (id : String)
  | unD (op : Nat) (rhs : Directive)
  | binD (op : Nat) (lhs rhs : Directive)
  | castD (sg : Bool) (lhs rhs : Directive)
  | simplifyD (rhs : Directive)
  | trySimplifyD (rhs : Directive)
  | orAlsoD (lhs rhs : Directive)
  | iffD (lhs rhs : Directive)
  | maskUnknownD (rhs : Directive)
  | maskOneD (rhs : Directive)
  | maskZeroD (rhs : Directive)
  | unreachableD
  | warningD (rhs : Directive)
  | unknownD
deriving DecidableEq, Repr

/-- Result of one translation: a non-null expression reference, the null
reference (recoverable absence), or a fatal abort
(`unreachable()` / `error()` / failed `fassert`). A fatal abort kills the
process, so it propagates through every caller. -/
inductive TRes where
  | ok (e : Expr)
  | fail
  | fatal
deriving DecidableEq, Repr

/-- Symbol table: bindings from pattern-variable identifiers to concrete
expressions, produced by the matcher. -/
def SymTab := List (String × Expr)

/-- Lookup of a pattern variable in the symbol table. -/
def lookupSym : SymTab → String → Option Expr
  | [], _ => none
  | (k, v) :: rest, id => if k = id then some v else lookupSym rest id

/-- The translator (`translate` in transformer.cpp): converts a directive
into an expression of the given size under the symbol table; when the
speculative flag is set, arithmetic operators only check that all present
children can be built and signal success with `dummyExpression`.

The leaf with an identifier resolves through `sym.translate`; the symbol
table class is external to this translation unit. Modelled from the spec:
an unbound pattern variable is a rule-construction logic error and a
fatal abort, not a recoverable failure. -/
def translate (sem : Sem) (sym : SymTab) : Directive → Nat → Bool → TRes
  | .constD v, bitCnt, _ => .ok (.const v bitCnt)
  | .varD id, _, _ =>
    match lookupSym sym id with
    | some e => .ok e
    | none => .fatal
  | .castD _ lhs rhs, bitCnt, true =>
    match translate sem sym lhs bitCnt true with
    | .fail => .fail
    | .fatal => .fatal
    | .ok _ =>
      match translate sem sym rhs bitCnt true with
      | .fail => .fail
      | .fatal => .fatal
      | .ok _ => .ok dummyExpression
  | .castD sg lhs rhs, bitCnt, false =>
    match translate sem sym lhs bitCnt false with
    | .fail => .fail
    | .fatal => .fatal
    | .ok l =>
      match translate sem sym rhs bitCnt false with
      | .fail => .fail
      | .fatal => .fatal
      | .ok r =>
        match sem.getBitcnt r with
        | some sz => .ok (sem.resize l sz sg)
        | none => .fatal
  | .binD _ lhs rhs, bitCnt, true =>
    match translate sem sym lhs bitCnt true with
    | .fail => .fail
    | .fatal => .fatal
    | .ok _ =>
      match translate sem sym rhs bitCnt true with
      | .fail => .fail
      | .fatal => .fatal
      | .ok _ => .ok dummyExpression
  | .binD op lhs rhs, bitCnt, false =>
    match translate sem sym lhs bitCnt false with
    | .fail => .fail
    | .fatal => .fatal
    | .ok l =>
      match translate sem sym rhs bitCnt false with
      | .fail => .fail
      | .fatal => .fatal
      | .ok r => .ok (sem.make2 l op r)
  | .unD _ rhs, bitCnt, true =>
    match translate sem sym rhs bitCnt true with
    | .fail => .fail
    | .fatal => .fatal
    | .ok _ => .ok dummyExpression
  | .unD op rhs, bitCnt, false =>
    match translate sem sym rhs bitCnt false with
    | .fail => .fail
    | .fatal => .fatal
    | .ok r => .ok (sem.make1 op r)
  | .simplifyD rhs, bitCnt, _ =>
    match translate sem sym rhs bitCnt false with
    | .fail => .fail
    | .fatal => .fatal
    | .ok e1 =>
      if sem.simplify_hint e1 then .fail
      else
        match sem.simplify_expression e1 with
        | (e1s, true) => .ok e1s
        | (_, false) => .fail
  | .trySimplifyD rhs, bitCnt, spec =>
    match translate sem sym rhs bitCnt spec with
    | .fail => .fail
    | .fatal => .fatal
    | .ok e1 => if spec then .ok e1 else .ok (sem.simplify_expression e1).1
  | .orAlsoD lhs rhs, bitCnt, spec =>
    match translate sem sym lhs bitCnt spec with
    | .ok e1 => .ok e1
    | .fatal => .fatal
    | .fail =>
      match translate sem sym rhs bitCnt spec with
      | .ok e2 => .ok e2
      | .fail => .fail
      | .fatal => .fatal
  | .iffD lhs rhs, bitCnt, spec =>
    match translate sem sym lhs bitCnt false with
    | .fail => .fail
    | .fatal => .fatal
    | .ok c =>
      if (sem.getB (sem.msimplify c)).getD false then
        translate sem sym rhs bitCnt spec
      else .fail
  | .maskUnknownD rhs, bitCnt, spec =>
    match translate sem sym rhs bitCnt spec with
    | .fail => .fail
    | .fatal => .fatal
    | .ok e => .ok (.const (sem.unknown_mask e) (esize e))
  | .maskOneD rhs, bitCnt, spec =>
    match translate sem sym rhs bitCnt spec with
    | .fail => .fail
    | .fatal => .fatal
    | .ok e => .ok (.const (sem.known_one e) (esize e))
  | .maskZeroD rhs, bitCnt, spec =>
    match translate sem sym rhs bitCnt spec with
    | .fail => .fail
    | .fatal => .fatal
    | .ok e => .ok (.const (sem.known_zero e) (esize e))
  | .unreachableD, _, _ => .fatal
  | .warningD rhs, bitCnt, spec => translate sem sym rhs bitCnt spec
  | .unknownD, _, _ => .fatal

/-- The filtered loop of `transform`: for each candidate symbol table in
order, committingly translate the template and return the first result
accepted by the filter; a failed `fassert`-free path simply continues. -/
def transformFiltered (sem : Sem) (toD : Directive) (sz : Nat)
    (filter : Expr → Bool) : List SymTab → TRes
  | [] => .fail
  | m :: rest =>
    match translate sem m toD sz false with
    | .fatal => .fatal
    | .fail => transformFiltered sem toD sz filter rest
    | .ok e =>
      if filter e then .ok e else transformFiltered sem toD sz filter rest

/-- The unfiltered loop of `transform`: for each candidate symbol table in
order, speculatively probe the template and skip the candidate when the
probe fails; on the first successful probe, committingly translate and
return the result, asserting (`fassert`) that the committing translation
did not fail. -/
def transformUnfiltered (sem : Sem) (toD : Directive) (sz : Nat) :
    List SymTab → TRes
  | [] => .fail
  | m :: rest =>
    match translate sem m toD sz true with
    | .fatal => .fatal
    | .fail => transformUnfiltered sem toD sz rest
    | .ok _ =>
      match translate sem m toD sz false with
      | .ok e => .ok e
      | .fail => .fatal
      | .fatal => .fatal

/-- The external structural matcher `fast_match`: `none` models a `false`
return, `some results` a `true` return with the filled candidate
vector. -/
def Matcher := Directive → Expr → Option (List SymTab)

/-- The `transform` orchestrator: match the input expression against the
pattern, then run the filtered or the unfiltered candidate loop at the
input expression's bit width. -/
def transform (sem : Sem) (fm : Matcher) (exp : Expr)
    (fromD toD : Directive) (filter : Option (Expr → Bool)) : TRes :=
  match fm fromD exp with
  | none => .fail
  | some results =>
    match filter with
    | some f => transformFiltered sem toD (esize exp) f results
    | none => transformUnfiltered sem toD (esize exp) results

/-- Whether a translation outcome is a success (a non-null reference). -/
def TRes.isOk : TRes → Bool
  | .ok _ => true
  | .fail => false
  | .fatal => false

/-- A candidate symbol table is rejected by the filtered loop of
`transform` when the committing translation of the template under it
returns the null reference, or succeeds but the filter refuses the
result. -/
def rejectedBy (sem : Sem) (toD : Directive) (sz : Nat) (filter : Expr → Bool)
    (m : SymTab) : Prop :=
  translate sem m toD sz false = .fail ∨
    ∃ e, translate sem m toD sz false = .ok e ∧ filter e = false

/-- A concrete instantiation of the external primitives, used to evaluate
the development on concrete inputs: constants expose their value through
`getB`/`getBitcnt`, construction records structure, the simplifier is the
identity reporting success, and masks are those of a fully known
constant. -/
def cSem : Sem where
  make2 := fun l op r => .binop op l r (max (esize l) (esize r))
  make1 := fun op r => .unop op r (esize r)
  resize := fun e _ _ => e
  simplify_expression := fun e => (e, true)
  msimplify := fun e => e
  getB := fun e =>
    match e with
    | .const v _ => some (decide (v ≠ 0))
    | _ => none
  getBitcnt := fun e =>
    match e with
    | .const v _ => if 0 ≤ v then some v.toNat else none
    | _ => none
  unknown_mask := fun _ => 0
  known_one := fun _ => 0
  known_zero := fun _ => 0
  simplify_hint := fun _ => false

/-- A concrete symbol table binding the width variable of a cast to a
symbolic (non-constant) expression. -/
def cSymW : SymTab := [("w", Expr.evar "W" 8)]

/-- A concrete cast directive whose width operand is the pattern variable
bound by `cSymW`. -/
def castDir : Directive := .castD true (.constD 5) (.varD "w")

/-- A variant of `cSem` whose expressions all carry the
do-not-simplify hint. -/
def cSemHint : Sem := { cSem with simplify_hint := fun _ => true }

/-- A variant of `cSem` whose external simplifier always reports
failure. -/
def cSemNoSimp : Sem := { cSem with simplify_expression := fun e => (e, false) }

/-- Claim C4: translating `conditional(C, R)` first translates `C` in
non-speculative mode and requires it, after the external simplifier, to
be a statically known boolean-true constant; if `C` fails to translate or
does not evaluate to constant true, the conditional fails with the
recoverable absence value; otherwise it returns the translation of `R`
under the caller's original speculative flag. -/
theorem conditional_gating (sem : Sem) (sym : SymTab)
    (c r : Directive) (w : Nat) (spec : Bool) :
    (translate sem sym c w false = .fail →
      translate sem sym (.iffD c r) w spec = .fail)
    ∧ (∀ ce, translate sem sym c w false = .ok ce →
      (sem.getB (sem.msimplify ce)).getD false = false →
      translate sem sym (.iffD c r) w spec = .fail)
    ∧ (∀ ce, translate sem sym c w false = .ok ce →
      (sem.getB (sem.msimplify ce)).getD false = true →
      translate sem sym (.iffD c r) w spec = translate sem sym r w spec) := by
  refine ⟨fun h => ?_, fun ce h hv => ?_, fun ce h hv => ?_⟩
  · simp [translate, h]
  · simp [translate, h, hv]
  · simp [translate, h, hv]

/-- Witness for C4 at concrete inputs: a condition that fails to
translate, a constant-false condition, and a constant-true condition. -/
theorem conditional_gating_witness :
    translate cSem [] (.iffD (.iffD (.constD 0) (.constD 1)) (.constD 7)) 8 false = .fail
    ∧ translate cSem [] (.iffD (.constD 0) (.constD 7)) 8 false = .fail
    ∧ translate cSem [] (.iffD (.constD 1) (.constD 7)) 8 false
        = translate cSem [] (.constD 7) 8 false := by
  refine ⟨(conditional_gating cSem [] _ _ 8 false).1 (by decide),
    (conditional_gating cSem [] _ _ 8 false).2.1 (.const 0 8) (by decide) (by decide),
    (conditional_gating cSem [] _ _ 8 false).2.2 (.const 1 8) (by decide) (by decide)⟩

/-- Claim C5: translating `alternation(A, B)` short-circuits left to
right: a successful left child is returned exactly as is, a failed left
child defers to the right child's translation verbatim, and the
alternation fails precisely when both children fail; in particular, when
both children are translatable the result is always the left one. -/
theorem alternation_left_priority (sem : Sem) (sym : SymTab)
    (a b : Directive) (w : Nat) (spec : Bool) :
    (∀ e, translate sem sym a w spec = .ok e →
      translate sem sym (.orAlsoD a b) w spec = .ok e)
    ∧ (translate sem sym a w spec = .fail →
      translate sem sym (.orAlsoD a b) w spec = translate sem sym b w spec)
    ∧ (translate sem sym a w spec = .fail →
      translate sem sym b w spec = .fail →
      translate sem sym (.orAlsoD a b) w spec = .fail) := by
  refine ⟨fun e h => ?_, fun h => ?_, fun h1 h2 => ?_⟩
  · simp [translate, h]
  · simp only [translate, h]
    cases translate sem sym b w spec <;> rfl
  · simp [translate, h1, h2]

/-- Witness for C5 at concrete inputs: a translatable left child, a
failing left child with a translatable right child, and two failing
children. -/
theorem alternation_left_priority_witness :
    translate cSem [] (.orAlsoD (.constD 1) (.constD 2)) 8 false = .ok (.const 1 8)
    ∧ translate cSem [] (.orAlsoD (.iffD (.constD 0) (.constD 1)) (.constD 2)) 8 false
        = translate cSem [] (.constD 2) 8 false
    ∧ translate cSem []
        (.orAlsoD (.iffD (.constD 0) (.constD 1)) (.iffD (.constD 0) (.constD 2))) 8 false
        = .fail := by
  refine ⟨(alternation_left_priority cSem [] _ _ 8 false).1 (.const 1 8) (by decide),
    (alternation_left_priority cSem [] _ _ 8 false).2.1 (by decide),
    (alternation_left_priority cSem [] _ _ 8 false).2.2 (by decide) (by decide)⟩

/-- Claim C6: the sequence-simplify directive translates its right child
in non-speculative mode regardless of the caller's speculative flag, and
returns a result exactly when that translation succeeds, the translated
expression does not carry the do-not-simplify hint, and the external
simplifier reports success on it; in each other (non-fatal) case it
fails with the recoverable absence value. -/
theorem simplify_directive_gating (sem : Sem) (sym : SymTab)
    (r : Directive) (w : Nat) (spec : Bool) :
    (translate sem sym r w false = .fail →
      translate sem sym (.simplifyD r) w spec = .fail)
    ∧ (∀ e1, translate sem sym r w false = .ok e1 →
      sem.simplify_hint e1 = true →
      translate sem sym (.simplifyD r) w spec = .fail)
    ∧ (∀ e1, translate sem sym r w false = .ok e1 →
      sem.simplify_hint e1 = false →
      (sem.simplify_expression e1).2 = false →
      translate sem sym (.simplifyD r) w spec = .fail)
    ∧ (∀ e1, translate sem sym r w false = .ok e1 →
      sem.simplify_hint e1 = false →
      (sem.simplify_expression e1).2 = true →
      translate sem sym (.simplifyD r) w spec = .ok (sem.simplify_expression e1).1)
    ∧ (∀ e, translate sem sym (.simplifyD r) w spec = .ok e →
      ∃ e1, translate sem sym r w false = .ok e1
        ∧ sem.simplify_hint e1 = false
        ∧ (sem.simplify_expression e1).2 = true
        ∧ e = (sem.simplify_expression e1).1) := by
  refine ⟨fun h => ?_, fun e1 h hh => ?_, fun e1 h hh hs => ?_,
    fun e1 h hh hs => ?_, fun e h => ?_⟩
  · simp [translate, h]
  · simp [translate, h, hh]
  · rcases hp : sem.simplify_expression e1 with ⟨e1s, b⟩
    rw [hp] at hs; simp at hs
    simp [translate, h, hh, hp, hs]
  · rcases hp : sem.simplify_expression e1 with ⟨e1s, b⟩
    rw [hp] at hs; simp at hs
    subst hs
    simp [translate, h, hh, hp]
  · rcases hr : translate sem sym r w false with e1 | _ | _ <;>
      simp only [translate, hr] at h
    · cases hh : sem.simplify_hint e1
      · rcases hp : sem.simplify_expression e1 with ⟨e1s, b⟩
        cases b
        · simp [hh, hp] at h
        · simp [hh, hp] at h
          exact ⟨e1, rfl, hh, by rw [hp], by rw [hp]; exact h.symm⟩
      · simp [hh] at h
    · cases h
    · cases h

/-- Witness for C6 at concrete inputs, one per branch: a failing right
child, a hint-carrying result, a simplifier rejection, a successful
simplification, and the only-if direction at the successful input. -/
theorem simplify_directive_gating_witness :
    translate cSem [] (.simplifyD (.iffD (.constD 0) (.constD 1))) 8 true = .fail
    ∧ translate cSemHint [] (.simplifyD (.constD 3)) 8 false = .fail
    ∧ translate cSemNoSimp [] (.simplifyD (.constD 3)) 8 false = .fail
    ∧ translate cSem [] (.simplifyD (.constD 3)) 8 true = .ok (.const 3 8)
    ∧ ∃ e1, translate cSem [] (.constD 3) 8 false = .ok e1
        ∧ cSem.simplify_hint e1 = false
        ∧ (cSem.simplify_expression e1).2 = true
        ∧ Expr.const 3 8 = (cSem.simplify_expression e1).1 := by
  refine ⟨(simplify_directive_gating cSem [] _ 8 true).1 (by decide),
    (simplify_directive_gating cSemHint [] _ 8 false).2.1 (.const 3 8)
      (by decide) (by decide),
    (simplify_directive_gating cSemNoSimp [] _ 8 false).2.2.1 (.const 3 8)
      (by decide) (by decide) (by decide),
    (simplify_directive_gating cSem [] _ 8 true).2.2.2.1 (.const 3 8)
      (by decide) (by decide) (by decide),
    (simplify_directive_gating cSem [] _ 8 true).2.2.2.2 (.const 3 8) (by decide)⟩

/-- Claim C7: the mask-unknown, mask-one and mask-zero directives, when
their right child translates successfully in committing mode, return a
constant expression carrying respectively the translated result's
unknown-bit mask, known-one-bit mask and known-zero-bit mask, at the
translated result's own bit width rather than the caller-requested one;
in particular mask-unknown of a fully constant operand (one with a zero
unknown mask) returns the constant zero. -/
theorem mask_directives (sem : Sem) (sym : SymTab) (r : Directive) (w : Nat) :
    (∀ e, translate sem sym r w false = .ok e →
      translate sem sym (.maskUnknownD r) w false
          = .ok (.const (sem.unknown_mask e) (esize e))
      ∧ translate sem sym (.maskOneD r) w false
          = .ok (.const (sem.known_one e) (esize e))
      ∧ translate sem sym (.maskZeroD r) w false
          = .ok (.const (sem.known_zero e) (esize e)))
    ∧ (∀ e, translate sem sym r w false = .ok e → sem.unknown_mask e = 0 →
      translate sem sym (.maskUnknownD r) w false = .ok (.const 0 (esize e))) := by
  constructor
  · intro e h
    refine ⟨?_, ?_, ?_⟩ <;> simp [translate, h]
  · intro e h hm
    simp [translate, h, hm]

/-- Witness for C7: a constant operand of width 8 under caller-requested
width 64, showing all three masks are returned at width 8 and that the
unknown mask of the fully constant operand is zero. -/
theorem mask_directives_witness :
    (translate cSem [("x", Expr.const 5 8)] (.maskUnknownD (.varD "x")) 64 false
        = .ok (.const 0 8)
      ∧ translate cSem [("x", Expr.const 5 8)] (.maskOneD (.varD "x")) 64 false
        = .ok (.const 0 8)
      ∧ translate cSem [("x", Expr.const 5 8)] (.maskZeroD (.varD "x")) 64 false
        = .ok (.const 0 8))
    ∧ translate cSem [("x", Expr.const 5 8)] (.maskUnknownD (.varD "x")) 64 false
        = .ok (.const 0 8) := by
  exact ⟨(mask_directives cSem [("x", Expr.const 5 8)] (.varD "x") 64).1
      (.const 5 8) (by decide),
    (mask_directives cSem [("x", Expr.const 5 8)] (.varD "x") 64).2
      (.const 5 8) (by decide) (by decide)⟩

/-- A rejected candidate is skipped by the filtered loop. -/
theorem transformFiltered_skip (sem : Sem) (toD : Directive) (sz : Nat)
    (f : Expr → Bool) (m : SymTab) (rest : List SymTab)
    (h : rejectedBy sem toD sz f m) :
    transformFiltered sem toD sz f (m :: rest)
      = transformFiltered sem toD sz f rest := by
  rcases h with h | ⟨e, he, hf⟩
  · simp [transformFiltered, h]
  · simp [transformFiltered, he, hf]

/-- When every candidate is rejected, the filtered loop signals the
recoverable absence. -/
theorem transformFiltered_all_rejected (sem : Sem) (toD : Directive) (sz : Nat)
    (f : Expr → Bool) :
    ∀ results : List SymTab, (∀ m ∈ results, rejectedBy sem toD sz f m) →
      transformFiltered sem toD sz f results = .fail := by
  intro results
  induction results with
  | nil => intro _; rfl
  | cons m rest ih =>
    intro h
    rw [transformFiltered_skip sem toD sz f m rest (h m (by simp))]
    exact ih fun m' hm' => h m' (by simp [hm'])

/-- The filtered loop returns the first accepted candidate's
translation. -/
theorem transformFiltered_first_accept (sem : Sem) (toD : Directive) (sz : Nat)
    (f : Expr → Bool) (m : SymTab) (rest : List SymTab) (e : Expr)
    (he : translate sem m toD sz false = .ok e) (hf : f e = true) :
    ∀ pre : List SymTab, (∀ m' ∈ pre, rejectedBy sem toD sz f m') →
      transformFiltered sem toD sz f (pre ++ m :: rest) = .ok e := by
  intro pre
  induction pre with
  | nil => intro _; simp [transformFiltered, he, hf]
  | cons p ptl ih =>
    intro h
    rw [List.cons_append,
      transformFiltered_skip sem toD sz f p (ptl ++ m :: rest) (h p (by simp))]
    exact ih fun m' hm' => h m' (by simp [hm'])

/-- Claim C3: with a filter, `transform` returns the translation of the
first candidate, in matcher order, whose committing translation succeeds
and is accepted by the filter; when the matcher yields no candidates, or
every candidate fails to translate or is rejected by the filter,
`transform` returns the absence value without raising. -/
theorem transform_filtered_first_accept (sem : Sem) (fm : Matcher)
    (exp : Expr) (fromD toD : Directive) (f : Expr → Bool) :
    (fm fromD exp = none → transform sem fm exp fromD toD (some f) = .fail)
    ∧ (∀ results, fm fromD exp = some results →
      (∀ m ∈ results, rejectedBy sem toD (esize exp) f m) →
      transform sem fm exp fromD toD (some f) = .fail)
    ∧ (∀ pre m rest e, fm fromD exp = some (pre ++ m :: rest) →
      (∀ m' ∈ pre, rejectedBy sem toD (esize exp) f m') →
      translate sem m toD (esize exp) false = .ok e →
      f e = true →
      transform sem fm exp fromD toD (some f) = .ok e) := by
  refine ⟨fun h => ?_, fun results hm hrej => ?_, fun pre m rest e hm hrej he hf => ?_⟩
  · simp [transform, h]
  · simp only [transform, hm]
    exact transformFiltered_all_rejected sem toD (esize exp) f results hrej
  · simp only [transform, hm]
    exact transformFiltered_first_accept sem toD (esize exp) f m rest e he hf pre hrej

/-- Witness for C3 at concrete inputs: an empty match, a single rejected
candidate, and a rejected candidate followed by an accepted one. -/
theorem transform_filtered_first_accept_witness :
    transform cSem (fun _ _ => none) (.evar "E" 8) (.varD "p") (.varD "x")
        (some fun e => decide (e = .const 2 8)) = .fail
    ∧ transform cSem (fun _ _ => some [[("x", Expr.const 1 8)]]) (.evar "E" 8)
        (.varD "p") (.varD "x")
        (some fun e => decide (e = .const 2 8)) = .fail
    ∧ transform cSem
        (fun _ _ => some [[("x", Expr.const 1 8)], [("x", Expr.const 2 8)]])
        (.evar "E" 8) (.varD "p") (.varD "x")
        (some fun e => decide (e = .const 2 8)) = .ok (.const 2 8) := by
  refine ⟨(transform_filtered_first_accept cSem _ _ _ _ _).1 rfl,
    (transform_filtered_first_accept cSem _ _ _ _ _).2.1
      [[("x", Expr.const 1 8)]] rfl ?_,
    (transform_filtered_first_accept cSem _ _ _ _ _).2.2
      [[("x", Expr.const 1 8)]] [("x", Expr.const 2 8)] [] (.const 2 8) rfl ?_
      (by decide) (by decide)⟩
  · intro m hm
    simp only [List.mem_singleton] at hm
    subst hm
    exact Or.inr ⟨.const 1 8, by decide, by decide⟩
  · intro m hm
    simp only [List.mem_singleton] at hm
    subst hm
    exact Or.inr ⟨.const 1 8, by decide, by decide⟩

/-- Claim C2: without a filter, `transform` walks the matcher's
candidates in order; a candidate whose speculative probe recoverably
fails is skipped, and on the first candidate whose probe succeeds the
template is committingly translated under that same candidate and the
result returned immediately, a committing failure being turned into a
fatal assertion violation (`fassert`) rather than a recoverable one. -/
theorem transform_unfiltered_probe (sem : Sem) (fm : Matcher) (exp : Expr)
    (fromD toD : Directive) (m : SymTab) (rest : List SymTab)
    (hm : fm fromD exp = some (m :: rest)) :
    (translate sem m toD (esize exp) true = .fail →
      transform sem fm exp fromD toD none
        = transformUnfiltered sem toD (esize exp) rest)
    ∧ (∀ d, translate sem m toD (esize exp) true = .ok d →
      transform sem fm exp fromD toD none
        = match translate sem m toD (esize exp) false with
          | .ok e => .ok e
          | .fail => .fatal
          | .fatal => .fatal) := by
  refine ⟨fun h => ?_, fun d h => ?_⟩
  · simp [transform, hm, transformUnfiltered, h]
  · simp only [transform, hm, transformUnfiltered, h]

/-- Witness for C2 at concrete inputs: a first candidate whose probe
fails (a constant-false conditional) followed by one whose probe
succeeds and whose committing translation is returned. -/
theorem transform_unfiltered_probe_witness :
    transform cSem
        (fun _ _ => some [[("c", Expr.const 0 1)],
          [("c", Expr.const 1 1), ("x", Expr.const 7 8)]])
        (.evar "E" 8) (.varD "p") (.iffD (.varD "c") (.varD "x")) none
      = transformUnfiltered cSem (.iffD (.varD "c") (.varD "x")) 8
          [[("c", Expr.const 1 1), ("x", Expr.const 7 8)]]
    ∧ transform cSem
        (fun _ _ => some [[("c", Expr.const 1 1), ("x", Expr.const 7 8)]])
        (.evar "E" 8) (.varD "p") (.iffD (.varD "c") (.varD "x")) none
      = .ok (.const 7 8) := by
  exact ⟨(transform_unfiltered_probe cSem _ _ _ _ _ _ rfl).1 (by decide),
    (transform_unfiltered_probe cSem _ _ _ _ _ _ rfl).2 (.const 7 8) (by decide)⟩

/-- Claim C8: the fatal translate-time conditions: an assert-unreachable
directive, a committing-mode cast whose width operand does not evaluate
to a compile-time-known width constant, an unbound pattern variable, and
a directive operator matching no handled case all abort fatally instead
of returning the recoverable absence. -/
theorem fatal_translate_cases (sem : Sem) (sym : SymTab) :
    (∀ w spec, translate sem sym .unreachableD w spec = .fatal)
    ∧ (∀ sg l r w le re, translate sem sym l w false = .ok le →
      translate sem sym r w false = .ok re →
      sem.getBitcnt re = none →
      translate sem sym (.castD sg l r) w false = .fatal)
    ∧ (∀ id w spec, lookupSym sym id = none →
      translate sem sym (.varD id) w spec = .fatal)
    ∧ (∀ w spec, translate sem sym .unknownD w spec = .fatal) := by
  refine ⟨fun w spec => rfl, fun sg l r w le re hl hr hw => ?_,
    fun id w spec h => ?_, fun w spec => rfl⟩
  · simp [translate, hl, hr, hw]
  · simp [translate, h]

/-- Witness for C8 at concrete inputs under `cSem` and `cSymW`: the
unreachable directive, the cast whose width variable is bound to a
symbolic expression, and an unbound pattern variable. -/
theorem fatal_translate_cases_witness :
    translate cSem cSymW .unreachableD 8 false = .fatal
    ∧ translate cSem cSymW castDir 8 false = .fatal
    ∧ translate cSem cSymW (.varD "x") 8 false = .fatal
    ∧ translate cSem cSymW .unknownD 8 true = .fatal := by
  exact ⟨(fatal_translate_cases cSem cSymW).1 8 false,
    (fatal_translate_cases cSem cSymW).2.1 true (.constD 5) (.varD "w") 8
      (.const 5 8) (.evar "W" 8) (by decide) (by decide) (by decide),
    (fatal_translate_cases cSem cSymW).2.2.1 "x" 8 false (by decide),
    (fatal_translate_cases cSem cSymW).2.2.2 8 true⟩

/-- Relation between the two translation modes, proved by structural
induction over the directive: a committing success implies a speculative
success, a committing recoverable failure implies a speculative
recoverable failure, and a speculative fatal abort implies a committing
fatal abort. The converse of the first implication fails only through
the committing-only fatal width check of casts. -/
theorem translate_modes_aux (sem : Sem) (sym : SymTab) :
    ∀ (d : Directive) (w : Nat),
      ((∃ e, translate sem sym d w false = .ok e) →
        ∃ e, translate sem sym d w true = .ok e)
      ∧ (translate sem sym d w false = .fail →
        translate sem sym d w true = .fail)
      ∧ (translate sem sym d w true = .fatal →
        translate sem sym d w false = .fatal) := by
  intro d
  induction d with
  | constD v =>
    intro w
    refine ⟨fun _ => ⟨.const v w, rfl⟩, fun h => ?_, fun h => ?_⟩ <;>
      simp [translate] at h
  | varD id =>
    intro w
    rcases h : lookupSym sym id with _ | e
    · refine ⟨?_, fun hf => ?_, fun _ => ?_⟩
      · rintro ⟨e, he⟩
        simp [translate, h] at he
      · simp [translate, h] at hf
      · simp [translate, h]
    · refine ⟨fun _ => ⟨e, by simp [translate, h]⟩, fun hf => ?_, fun hf => ?_⟩ <;>
        simp [translate, h] at hf
  | unD op rhs ih =>
    intro w
    obtain ⟨ih1, ih2, ih3⟩ := ih w
    refine ⟨?_, ?_, ?_⟩
    · rintro ⟨e, he⟩
      rcases hr : translate sem sym rhs w false with r | _ | _
      · obtain ⟨r', hr'⟩ := ih1 ⟨r, hr⟩
        exact ⟨dummyExpression, by simp [translate, hr']⟩
      · simp [translate, hr] at he
      · simp [translate, hr] at he
    · intro he
      rcases hr : translate sem sym rhs w false with r | _ | _
      · simp [translate, hr] at he
      · simp [translate, ih2 hr]
      · simp [translate, hr] at he
    · intro he
      rcases hr : translate sem sym rhs w true with r | _ | _
      · simp [translate, hr] at he
      · simp [translate, hr] at he
      · simp [translate, ih3 hr]
  | binD op lhs rhs ihl ihr =>
    intro w
    obtain ⟨ihl1, ihl2, ihl3⟩ := ihl w
    obtain ⟨ihr1, ihr2, ihr3⟩ := ihr w
    refine ⟨?_, ?_, ?_⟩
    · rintro ⟨e, he⟩
      rcases hl : translate sem sym lhs w false with l | _ | _
      · rcases hr : translate sem sym rhs w false with r | _ | _
        · obtain ⟨l', hl'⟩ := ihl1 ⟨l, hl⟩
          obtain ⟨r', hr'⟩ := ihr1 ⟨r, hr⟩
          exact ⟨dummyExpression, by simp [translate, hl', hr']⟩
        · simp [translate, hl, hr] at he
        · simp [translate, hl, hr] at he
      · simp [translate, hl] at he
      · simp [translate, hl] at he
    · intro he
      rcases hl : translate sem sym lhs w false with l | _ | _
      · rcases hr : translate sem sym rhs w false with r | _ | _
        · simp [translate, hl, hr] at he
        · obtain ⟨l', hl'⟩ := ihl1 ⟨l, hl⟩
          simp [translate, hl', ihr2 hr]
        · simp [translate, hl, hr] at he
      · simp [translate, ihl2 hl]
      · simp [translate, hl] at he
    · intro he
      rcases hl : translate sem sym lhs w true with l | _ | _
      · rcases hr : translate sem sym rhs w true with r | _ | _
        · simp [translate, hl, hr] at he
        · simp [translate, hl, hr] at he
        · rcases hlf : translate sem sym lhs w false with lf | _ | _
          · simp [translate, hlf, ihr3 hr]
          · have hc := ihl2 hlf
            rw [hl] at hc
            cases hc
          · simp [translate, hlf]
      · simp [translate, hl] at he
      · simp [translate, ihl3 hl]
  | castD sg lhs rhs ihl ihr =>
    intro w
    obtain ⟨ihl1, ihl2, ihl3⟩ := ihl w
    obtain ⟨ihr1, ihr2, ihr3⟩ := ihr w
    refine ⟨?_, ?_, ?_⟩
    · rintro ⟨e, he⟩
      rcases hl : translate sem sym lhs w false with l | _ | _
      · rcases hr : translate sem sym rhs w false with r | _ | _
        · obtain ⟨l', hl'⟩ := ihl1 ⟨l, hl⟩
          obtain ⟨r', hr'⟩ := ihr1 ⟨r, hr⟩
          exact ⟨dummyExpression, by simp [translate, hl', hr']⟩
        · simp [translate, hl, hr] at he
        · simp [translate, hl, hr] at he
      · simp [translate, hl] at he
      · simp [translate, hl] at he
    · intro he
      rcases hl : translate sem sym lhs w false with l | _ | _
      · rcases hr : translate sem sym rhs w false with r | _ | _
        · rcases hw : sem.getBitcnt r with _ | sz
          · simp [translate, hl, hr, hw] at he
          · simp [translate, hl, hr, hw] at he
        · obtain ⟨l', hl'⟩ := ihl1 ⟨l, hl⟩
          simp [translate, hl', ihr2 hr]
        · simp [translate, hl, hr] at he
      · simp [translate, ihl2 hl]
      · simp [translate, hl] at he
    · intro he
      rcases hl : translate sem sym lhs w true with l | _ | _
      · rcases hr : translate sem sym rhs w true with r | _ | _
        · simp [translate, hl, hr] at he
        · simp [translate, hl, hr] at he
        · rcases hlf : translate sem sym lhs w false with lf | _ | _
          · simp [translate, hlf, ihr3 hr]
          · have hc := ihl2 hlf
            rw [hl] at hc
            cases hc
          · simp [translate, hlf]
      · simp [translate, hl] at he
      · simp [translate, ihl3 hl]
  | simplifyD rhs ih =>
    intro w
    refine ⟨fun h => ?_, fun h => ?_, fun h => ?_⟩ <;>
      simpa only [translate] using h
  | trySimplifyD rhs ih =>
    intro w
    obtain ⟨ih1, ih2, ih3⟩ := ih w
    refine ⟨?_, ?_, ?_⟩
    · rintro ⟨e, he⟩
      rcases hr : translate sem sym rhs w false with r | _ | _
      · obtain ⟨r', hr'⟩ := ih1 ⟨r, hr⟩
        exact ⟨r', by simp [translate, hr']⟩
      · simp [translate, hr] at he
      · simp [translate, hr] at he
    · intro he
      rcases hr : translate sem sym rhs w false with r | _ | _
      · simp [translate, hr] at he
      · simp [translate, ih2 hr]
      · simp [translate, hr] at he
    · intro he
      rcases hr : translate sem sym rhs w true with r | _ | _
      · simp [translate, hr] at he
      · simp [translate, hr] at he
      · simp [translate, ih3 hr]
  | orAlsoD lhs rhs ihl ihr =>
    intro w
    obtain ⟨ihl1, ihl2, ihl3⟩ := ihl w
    obtain ⟨ihr1, ihr2, ihr3⟩ := ihr w
    refine ⟨?_, ?_, ?_⟩
    · rintro ⟨e, he⟩
      rcases hl : translate sem sym lhs w false with l | _ | _
      · obtain ⟨l', hl'⟩ := ihl1 ⟨l, hl⟩
        exact ⟨l', by simp [translate, hl']⟩
      · rcases hr : translate sem sym rhs w false with r | _ | _
        · obtain ⟨r', hr'⟩ := ihr1 ⟨r, hr⟩
          exact ⟨r', by simp [translate, ihl2 hl, hr']⟩
        · simp [translate, hl, hr] at he
        · simp [translate, hl, hr] at he
      · simp [translate, hl] at he
    · intro he
      rcases hl : translate sem sym lhs w false with l | _ | _
      · simp [translate, hl] at he
      · rcases hr : translate sem sym rhs w false with r | _ | _
        · simp [translate, hl, hr] at he
        · simp [translate, ihl2 hl, ihr2 hr]
        · simp [translate, hl, hr] at he
      · simp [translate, hl] at he
    · intro he
      rcases hl : translate sem sym lhs w true with l | _ | _
      · simp [translate, hl] at he
      · rcases hr : translate sem sym rhs w true with r | _ | _
        · simp [translate, hl, hr] at he
        · simp [translate, hl, hr] at he
        · rcases hlf : translate sem sym lhs w false with lf | _ | _
          · obtain ⟨l', hl'⟩ := ihl1 ⟨lf, hlf⟩
            rw [hl] at hl'
            cases hl'
          · simp [translate, hlf, ihr3 hr]
          · simp [translate, hlf]
      · simp [translate, ihl3 hl]
  | iffD lhs rhs ihl ihr =>
    intro w
    obtain ⟨ihr1, ihr2, ihr3⟩ := ihr w
    refine ⟨?_, ?_, ?_⟩
    · rintro ⟨e, he⟩
      rcases hc : translate sem sym lhs w false with c | _ | _
      · rcases hg : (sem.getB (sem.msimplify c)).getD false
        · simp [translate, hc, hg] at he
        · simp [translate, hc, hg] at he
          obtain ⟨r', hr'⟩ := ihr1 ⟨e, he⟩
          exact ⟨r', by simp [translate, hc, hg, hr']⟩
      · simp [translate, hc] at he
      · simp [translate, hc] at he
    · intro he
      rcases hc : translate sem sym lhs w false with c | _ | _
      · rcases hg : (sem.getB (sem.msimplify c)).getD false
        · simp [translate, hc, hg]
        · simp [translate, hc, hg] at he
          simp [translate, hc, hg, ihr2 he]
      · simp [translate, hc]
      · simp [translate, hc] at he
    · intro he
      rcases hc : translate sem sym lhs w false with c | _ | _
      · rcases hg : (sem.getB (sem.msimplify c)).getD false
        · simp [translate, hc, hg] at he
        · simp [translate, hc, hg] at he
          simp [translate, hc, hg, ihr3 he]
      · simp [translate, hc] at he
      · simp [translate, hc]
  | maskUnknownD rhs ih =>
    intro w
    obtain ⟨ih1, ih2, ih3⟩ := ih w
    refine ⟨?_, ?_, ?_⟩
    · rintro ⟨e, he⟩
      rcases hr : translate sem sym rhs w false with r | _ | _
      · obtain ⟨r', hr'⟩ := ih1 ⟨r, hr⟩
        exact ⟨.const (sem.unknown_mask r') (esize r'), by simp [translate, hr']⟩
      · simp [translate, hr] at he
      · simp [translate, hr] at he
    · intro he
      rcases hr : translate sem sym rhs w false with r | _ | _
      · simp [translate, hr] at he
      · simp [translate, ih2 hr]
      · simp [translate, hr] at he
    · intro he
      rcases hr : translate sem sym rhs w true with r | _ | _
      · simp [translate, hr] at he
      · simp [translate, hr] at he
      · simp [translate, ih3 hr]
  | maskOneD rhs ih =>
    intro w
    obtain ⟨ih1, ih2, ih3⟩ := ih w
    refine ⟨?_, ?_, ?_⟩
    · rintro ⟨e, he⟩
      rcases hr : translate sem sym rhs w false with r | _ | _
      · obtain ⟨r', hr'⟩ := ih1 ⟨r, hr⟩
        exact ⟨.const (sem.known_one r') (esize r'), by simp [translate, hr']⟩
      · simp [translate, hr] at he
      · simp [translate, hr] at he
    · intro he
      rcases hr : translate sem sym rhs w false with r | _ | _
      · simp [translate, hr] at he
      · simp [translate, ih2 hr]
      · simp [translate, hr] at he
    · intro he
      rcases hr : translate sem sym rhs w true with r | _ | _
      · simp [translate, hr] at he
      · simp [translate, hr] at he
      · simp [translate, ih3 hr]
  | maskZeroD rhs ih =>
    intro w
    obtain ⟨ih1, ih2, ih3⟩ := ih w
    refine ⟨?_, ?_, ?_⟩
    · rintro ⟨e, he⟩
      rcases hr : translate sem sym rhs w false with r | _ | _
      · obtain ⟨r', hr'⟩ := ih1 ⟨r, hr⟩
        exact ⟨.const (sem.known_zero r') (esize r'), by simp [translate, hr']⟩
      · simp [translate, hr] at he
      · simp [translate, hr] at he
    · intro he
      rcases hr : translate sem sym rhs w false with r | _ | _
      · simp [translate, hr] at he
      · simp [translate, ih2 hr]
      · simp [translate, hr] at he
    · intro he
      rcases hr : translate sem sym rhs w true with r | _ | _
      · simp [translate, hr] at he
      · simp [translate, hr] at he
      · simp [translate, ih3 hr]
  | unreachableD =>
    intro w
    refine ⟨?_, fun h => ?_, fun _ => rfl⟩
    · rintro ⟨e, he⟩
      simp [translate] at he
    · simp [translate] at h
  | warningD rhs ih =>
    intro w
    obtain ⟨ih1, ih2, ih3⟩ := ih w
    refine ⟨fun h => ?_, fun h => ?_, fun h => ?_⟩
    · obtain ⟨e, he⟩ := h
      obtain ⟨e', he'⟩ := ih1 ⟨e, by simpa only [translate] using he⟩
      exact ⟨e', by simpa only [translate] using he'⟩
    · have hx := ih2 (by simpa only [translate] using h)
      simpa only [translate] using hx
    · have hx := ih3 (by simpa only [translate] using h)
      simpa only [translate] using hx
  | unknownD =>
    intro w
    refine ⟨?_, fun h => ?_, fun _ => rfl⟩
    · rintro ⟨e, he⟩
      simp [translate] at he
    · simp [translate] at h

/-- Counterexample to claim C1 as stated: for the cast directive whose
width operand is bound to a symbolic expression, speculative translation
succeeds while committing translation does not return a non-null result
(it aborts fatally on the non-constant width), so the success
biconditional between the two modes fails at this input. -/
theorem speculative_commit_iff_counterexample :
    ¬ ((translate cSem cSymW castDir 8 true).isOk = true
      ↔ (translate cSem cSymW castDir 8 false).isOk = true) := by
  decide

/-- Claim C1 (amended): committing success implies speculative success,
and a speculative success rules out a committing recoverable failure,
though the committing translation may still abort fatally (on the
committing-only cast width check); moreover a speculative fatal abort
implies a committing fatal abort. In particular the biconditional
"speculative succeeds iff committing succeeds" holds whenever the
committing translation does not abort fatally. -/
theorem speculative_commit_consistency (sem : Sem) (sym : SymTab)
    (d : Directive) (w : Nat) :
    ((translate sem sym d w false).isOk = true →
      (translate sem sym d w true).isOk = true)
    ∧ ((translate sem sym d w true).isOk = true →
      translate sem sym d w false ≠ .fail)
    ∧ (translate sem sym d w true = .fatal →
      translate sem sym d w false = .fatal) := by
  obtain ⟨h1, h2, h3⟩ := translate_modes_aux sem sym d w
  refine ⟨?_, ?_, h3⟩
  · intro h
    rcases hf : translate sem sym d w false with e | _ | _
    · obtain ⟨e', he'⟩ := h1 ⟨e, hf⟩
      rw [he']
      rfl
    · rw [hf] at h
      simp [TRes.isOk] at h
    · rw [hf] at h
      simp [TRes.isOk] at h
  · intro h hf
    rw [h2 hf] at h
    simp [TRes.isOk] at h

/-- Witness for the amended C1: a committing success made speculative, a
speculative success excluding a committing recoverable failure at the
fatal cast, and a speculative fatal abort made committing. -/
theorem speculative_commit_consistency_witness :
    (translate cSem cSymW (.constD 3) 8 true).isOk = true
    ∧ translate cSem cSymW castDir 8 false ≠ .fail
    ∧ translate cSem [] (.varD "x") 8 false = .fatal := by
  refine ⟨(speculative_commit_consistency cSem cSymW (.constD 3) 8).1 (by decide),
    (speculative_commit_consistency cSem cSymW castDir 8).2.1 (by decide),
    (speculative_commit_consistency cSem [] (.varD "x") 8).2.2 (by decide)⟩

/-- Claim C10: a speculative cast or unsigned-cast succeeds whenever both
children speculatively succeed, without the width operand being checked
for constancy, while the fatal width check runs only in committing mode;
hence on some directive and bindings (a cast whose width variable is
bound to a symbolic expression) the speculative translation succeeds and
the committing one reaches the fatal branch. -/
theorem speculative_cast_no_width_check :
    (∀ (sem : Sem) (sym : SymTab) (sg : Bool) (l r : Directive) (w : Nat)
      (dl dr : Expr),
      translate sem sym l w true = .ok dl →
      translate sem sym r w true = .ok dr →
      translate sem sym (.castD sg l r) w true = .ok dummyExpression)
    ∧ (∃ (sem : Sem) (sym : SymTab) (sg : Bool) (l r : Directive) (w : Nat),
      (translate sem sym (.castD sg l r) w true).isOk = true
      ∧ translate sem sym (.castD sg l r) w false = .fatal) := by
  constructor
  · intro sem sym sg l r w dl dr hl hr
    simp [translate, hl, hr]
  · exact ⟨cSem, cSymW, true, .constD 5, .varD "w", 8, by decide, by decide⟩

/-- Witness for C10: the concrete cast directive with a symbolic width
binding succeeds speculatively. -/
theorem speculative_cast_no_width_check_witness :
    translate cSem cSymW castDir 8 true = .ok dummyExpression :=
  speculative_cast_no_width_check.1 cSem cSymW true (.constD 5) (.varD "w") 8
    (.const 5 8) (.evar "W" 8) (by decide) (by decide)

/-- If the filtered loop returns a result, that result is the committing
translation of one of the candidate symbol tables. -/
theorem transformFiltered_ok_source (sem : Sem) (toD : Directive) (sz : Nat)
    (f : Expr → Bool) :
    ∀ (results : List SymTab) (e : Expr),
      transformFiltered sem toD sz f results = .ok e →
      ∃ m ∈ results, translate sem m toD sz false = .ok e := by
  intro results
  induction results with
  | nil =>
    intro e h
    cases h
  | cons m rest ih =>
    intro e h
    rcases hm : translate sem m toD sz false with e1 | _ | _
    · rcases hf : f e1 with _ | _
      · simp [transformFiltered, hm, hf] at h
        obtain ⟨m', hm', he'⟩ := ih e h
        exact ⟨m', by simp [hm'], he'⟩
      · simp [transformFiltered, hm, hf] at h
        rw [h] at hm
        exact ⟨m, by simp, hm⟩
    · simp [transformFiltered, hm] at h
      obtain ⟨m', hm', he'⟩ := ih e h
      exact ⟨m', by simp [hm'], he'⟩
    · simp [transformFiltered, hm] at h

/-- If the unfiltered loop returns a result, that result is the
committing translation of one of the candidate symbol tables. -/
theorem transformUnfiltered_ok_source (sem : Sem) (toD : Directive) (sz : Nat) :
    ∀ (results : List SymTab) (e : Expr),
      transformUnfiltered sem toD sz results = .ok e →
      ∃ m ∈ results, translate sem m toD sz false = .ok e := by
  intro results
  induction results with
  | nil =>
    intro e h
    cases h
  | cons m rest ih =>
    intro e h
    rcases hp : translate sem m toD sz true with d | _ | _
    · rcases hc : translate sem m toD sz false with e1 | _ | _
      · simp [transformUnfiltered, hp, hc] at h
        rw [h] at hc
        exact ⟨m, by simp, hc⟩
      · simp [transformUnfiltered, hp, hc] at h
      · simp [transformUnfiltered, hp, hc] at h
    · simp [transformUnfiltered, hp] at h
      obtain ⟨m', hm', he'⟩ := ih e h
      exact ⟨m', by simp [hm'], he'⟩
    · simp [transformUnfiltered, hp] at h

/-- Committing-mode translation never fabricates the dummy sentinel:
when no symbol-table binding contains it and the external construction,
resize and simplifier primitives preserve its absence, every expression
returned by a non-speculative `translate` is free of the sentinel. -/
theorem translate_commit_dummy_free (sem : Sem) (sym : SymTab)
    (hsym : ∀ id e, lookupSym sym id = some e → containsDummy e = false)
    (hmk2 : ∀ l op r, containsDummy l = false → containsDummy r = false →
      containsDummy (sem.make2 l op r) = false)
    (hmk1 : ∀ op r, containsDummy r = false →
      containsDummy (sem.make1 op r) = false)
    (hresize : ∀ e n b, containsDummy e = false →
      containsDummy (sem.resize e n b) = false)
    (hsimp : ∀ e, containsDummy e = false →
      containsDummy (sem.simplify_expression e).1 = false) :
    ∀ (d : Directive) (w : Nat) (e : Expr),
      translate sem sym d w false = .ok e → containsDummy e = false := by
  intro d
  induction d with
  | constD v =>
    intro w e he
    simp [translate] at he
    rw [← he]
    rfl
  | varD id =>
    intro w e he
    rcases h : lookupSym sym id with _ | e0
    · simp [translate, h] at he
    · simp [translate, h] at he
      rw [← he]
      exact hsym id e0 h
  | unD op rhs ih =>
    intro w e he
    rcases hr : translate sem sym rhs w false with r | _ | _ <;>
      simp [translate, hr] at he
    rw [← he]
    exact hmk1 op r (ih w r hr)
  | binD op lhs rhs ihl ihr =>
    intro w e he
    rcases hl : translate sem sym lhs w false with l | _ | _ <;>
      simp [translate, hl] at he
    rcases hr : translate sem sym rhs w false with r | _ | _ <;>
      rw [hr] at he <;> simp at he
    rw [← he]
    exact hmk2 l op r (ihl w l hl) (ihr w r hr)
  | castD sg lhs rhs ihl ihr =>
    intro w e he
    rcases hl : translate sem sym lhs w false with l | _ | _ <;>
      simp [translate, hl] at he
    rcases hr : translate sem sym rhs w false with r | _ | _ <;>
      rw [hr] at he <;> simp at he
    rcases hw : sem.getBitcnt r with _ | sz <;> rw [hw] at he <;> simp at he
    rw [← he]
    exact hresize l sz sg (ihl w l hl)
  | simplifyD rhs ih =>
    intro w e he
    rcases hr : translate sem sym rhs w false with e1 | _ | _ <;>
      simp [translate, hr] at he
    rcases hh : sem.simplify_hint e1 with _ | _ <;> rw [hh] at he <;> simp at he
    rcases hp : sem.simplify_expression e1 with ⟨e1s, b⟩
    rw [hp] at he
    cases b
    · simp at he
    · simp at he
      rw [← he]
      have hx := hsimp e1 (ih w e1 hr)
      rw [hp] at hx
      exact hx
  | trySimplifyD rhs ih =>
    intro w e he
    rcases hr : translate sem sym rhs w false with e1 | _ | _ <;>
      simp [translate, hr] at he
    rw [← he]
    exact hsimp e1 (ih w e1 hr)
  | orAlsoD lhs rhs ihl ihr =>
    intro w e he
    rcases hl : translate sem sym lhs w false with l | _ | _ <;>
      simp [translate, hl] at he
    · rw [← he]
      exact ihl w l hl
    · rcases hr : translate sem sym rhs w false with r | _ | _ <;>
        rw [hr] at he <;> simp at he
      rw [← he]
      exact ihr w r hr
  | iffD lhs rhs ihl ihr =>
    intro w e he
    rcases hc : translate sem sym lhs w false with c | _ | _ <;>
      simp [translate, hc] at he
    rcases hg : (sem.getB (sem.msimplify c)).getD false <;> rw [hg] at he
    · simp at he
    · simp at he
      exact ihr w e he
  | maskUnknownD rhs ih =>
    intro w e he
    rcases hr : translate sem sym rhs w false with r | _ | _ <;>
      simp [translate, hr] at he
    rw [← he]
    rfl
  | maskOneD rhs ih =>
    intro w e he
    rcases hr : translate sem sym rhs w false with r | _ | _ <;>
      simp [translate, hr] at he
    rw [← he]
    rfl
  | maskZeroD rhs ih =>
    intro w e he
    rcases hr : translate sem sym rhs w false with r | _ | _ <;>
      simp [translate, hr] at he
    rw [← he]
    rfl
  | unreachableD =>
    intro w e he
    cases he
  | warningD rhs ih =>
    intro w e he
    exact ih w e (by simpa only [translate] using he)
  | unknownD =>
    intro w e he
    cases he

/-- Claim C9: the dummy sentinel used to signal speculative success never
appears as, or inside, an expression returned by `transform`, and a
committing-mode `translate` never returns it: provided the matcher's
candidate bindings and the external construction, resize and simplifier
primitives do not themselves supply expressions containing the sentinel,
every returned result is free of it. -/
theorem dummy_never_escapes (sem : Sem) (fm : Matcher)
    (hmk2 : ∀ l op r, containsDummy l = false → containsDummy r = false →
      containsDummy (sem.make2 l op r) = false)
    (hmk1 : ∀ op r, containsDummy r = false →
      containsDummy (sem.make1 op r) = false)
    (hresize : ∀ e n b, containsDummy e = false →
      containsDummy (sem.resize e n b) = false)
    (hsimp : ∀ e, containsDummy e = false →
      containsDummy (sem.simplify_expression e).1 = false)
    (hfm : ∀ fromD exp results, fm fromD exp = some results →
      ∀ m ∈ results, ∀ id e, lookupSym m id = some e →
        containsDummy e = false) :
    (∀ exp fromD toD filter e,
      transform sem fm exp fromD toD filter = .ok e →
      containsDummy e = false)
    ∧ (∀ sym : SymTab,
      (∀ id e, lookupSym sym id = some e → containsDummy e = false) →
      ∀ d w e, translate sem sym d w false = .ok e →
        containsDummy e = false) := by
  constructor
  · intro exp fromD toD filter e h
    rw [transform] at h
    rcases hm : fm fromD exp with _ | results
    · rw [hm] at h
      cases h
    · rw [hm] at h
      rcases filter with _ | f
      · obtain ⟨m, hmem, hok⟩ :=
          transformUnfiltered_ok_source sem toD (esize exp) results e h
        exact translate_commit_dummy_free sem m
          (hfm fromD exp results hm m hmem) hmk2 hmk1 hresize hsimp
          toD (esize exp) e hok
      · obtain ⟨m, hmem, hok⟩ :=
          transformFiltered_ok_source sem toD (esize exp) f results e h
        exact translate_commit_dummy_free sem m
          (hfm fromD exp results hm m hmem) hmk2 hmk1 hresize hsimp
          toD (esize exp) e hok
  · intro sym hsym d w e h
    exact translate_commit_dummy_free sem sym hsym hmk2 hmk1 hresize hsimp
      d w e h

/-- Witness for C9: a concrete unfiltered `transform` run under `cSem`
returning a constant; the returned expression is sentinel-free. -/
theorem dummy_never_escapes_witness :
    containsDummy (.const 7 8) = false :=
  (dummy_never_escapes cSem (fun _ _ => some [[("x", Expr.const 7 8)]])
    (fun l op r hl hr => by simp [cSem, containsDummy, hl, hr])
    (fun op r hr => by simp [cSem, containsDummy, hr])
    (fun e n b h => h)
    (fun e h => h)
    (by
      intro fromD exp results hres m hm id e h
      cases hres
      simp only [List.mem_singleton] at hm
      subst hm
      simp only [lookupSym] at h
      split at h
      · cases h
        rfl
      · cases h)).1
    (.evar "E" 8) (.varD "p") (.varD "x") none (.const 7 8) (by decide)

end VTILSymEx
